import Mathlib

/-
Verification of the ticket-identifier extraction core of `jira2pr`
(src/jira2pr/jira2pr.py).

The Python core consists of
  * `normalize_ticket_id` (jira2pr.py lines 17-40), and
  * `GitHubPR.extract_ticket_ids_from_title` (jira2pr.py lines 209-350),
    an ordered list of eight regular expressions evaluated with
    `re.finditer(..., re.IGNORECASE)`, a group-disambiguation loop, a
    prefix filter, a known-projects filter, deduplication, and an early
    return when `first_only` is set.

The regexes use only single-character classes under each quantifier, plus
ordered alternation of literal words, one-character negative
lookbehind/lookahead, and the `^` anchor.  We embed them as backtracking
matchers over `List Char`: a matcher returns the list of all possible
(result, end-position) pairs in exactly Python's backtracking priority
order (greedy quantifiers try longest first, alternations try
left-to-right), so the head of the list is the match Python produces, and
`finditer` is the usual leftmost non-overlapping scan.

Unicode caveat: Python's `str.upper`, `\d`, `\s` and `re.IGNORECASE` have
unicode-aware behaviour; we model the ASCII fragment (`\d` = [0-9],
`\s` = [ \t\n\r\x0b\x0c], case mapping on a-z/A-Z), which is exact on all
characters the patterns themselves can capture.
-/

namespace Jira2PR

/-- Characters matched by the regex class `[A-Za-z]` (codepoints 65-90 and 97-122). -/
def isAsciiAlpha (c : Char) : Bool := (65 ≤ c.toNat && c.toNat ≤ 90) || (97 ≤ c.toNat && c.toNat ≤ 122)

/-- Characters matched by the regex class `[A-Z]` (codepoints 65-90). -/
def isUpperAZ (c : Char) : Bool := 65 ≤ c.toNat && c.toNat ≤ 90

/-- Characters matched by the regex class `[0-9]` / by `\d` in the ASCII model. -/
def isAsciiDigit (c : Char) : Bool := 48 ≤ c.toNat && c.toNat ≤ 57

/-- Characters matched by `\s` on ASCII text: space, tab, newline, carriage
return, vertical tab, form feed. -/
def isPySpace (c : Char) : Bool :=
  c = ' ' || c = '\t' || c = '\n' || c = '\r' || c = '\x0b' || c = '\x0c'

/-- Characters of the separator class `[-\s:]` (jira2pr.py line 248). -/
def isSepChar (c : Char) : Bool := c = '-' || isPySpace c || c = ':'

/-- Backtracking regex matcher over a fixed input: given the whole input and a
start position it returns every possible (captured value, end position), in
Python's backtracking priority order. -/
def Matcher (α : Type) : Type := List Char → Nat → List (α × Nat)

/-- Matcher that consumes nothing and succeeds once. -/
def mpure {α : Type} (a : α) : Matcher α := fun _ i => [(a, i)]

/-- Sequencing of matchers; result order is depth-first, i.e. Python's
backtracking order. -/
def mbind {α β : Type} (m : Matcher α) (f : α → Matcher β) : Matcher β :=
  fun s i => (m s i).flatMap fun x => f x.1 s x.2

/-- Sequencing that discards the first matcher's capture. -/
def mthen {α β : Type} (m : Matcher α) (q : Matcher β) : Matcher β :=
  mbind m fun _ => q

/-- Mapping over a matcher's capture. -/
def mmap {α β : Type} (g : α → β) (m : Matcher α) : Matcher β :=
  mbind m fun a => mpure (g a)

/-- Length of the maximal run of characters satisfying `p` starting at
position `i`. -/
def runLen (p : Char → Bool) (s : List Char) (i : Nat) : Nat :=
  ((s.drop i).takeWhile p).length

/-- Greedy bounded repetition `X{lo,hi}` of a one-character class `X`; the
capture is the consumed text.  Greedy order: the longest repetition is tried
first, down to `lo`.  `X?` is `repCls p 0 1`, a single mandatory `X` is
`repCls p 1 1`. -/
def repCls (p : Char → Bool) (lo hi : Nat) : Matcher (List Char) := fun s i =>
  let m := min (runLen p s i) hi
  (List.range (m + 1 - lo)).map fun t => ((s.drop i).take (m - t), i + (m - t))

/-- Greedy unbounded repetition `X*` of a one-character class. -/
def starCls (p : Char → Bool) : Matcher (List Char) := fun s i =>
  repCls p 0 s.length s i

/-- Greedy repetition `X+` of a one-character class. -/
def plusCls (p : Char → Bool) : Matcher (List Char) := fun s i =>
  repCls p 1 s.length s i

/-- Case-insensitive literal, modelling a regex literal under
`re.IGNORECASE` (ASCII case folding). -/
def litCI (w : List Char) : Matcher Unit := fun s i =>
  if ((s.drop i).take w.length).map Char.toLower = w.map Char.toLower then
    [((), i + w.length)]
  else []

/-- Anchor `^` (no `re.MULTILINE`, so it matches only at position 0). -/
def mbol : Matcher Unit := fun _ i => if i = 0 then [((), i)] else []

/-- One-character negative lookbehind `(?<!X)`. -/
def negLookbehind (p : Char → Bool) : Matcher Unit := fun s i =>
  if i = 0 then [((), i)]
  else if p (s.getD (i - 1) ' ') then [] else [((), i)]

/-- One-character negative lookahead `(?!X)`. -/
def negLookahead (p : Char → Bool) : Matcher Unit := fun s i =>
  if i < s.length then (if p (s.getD i ' ') then [] else [((), i)])
  else [((), i)]

/-- Alternatives of `COMMIT_TYPES` (jira2pr.py line 239), in the source's
order: `(?:feat|fix|docs|style|refactor|test|chore|perf|ci|build|revert|deploy|deployment|deployed)`. -/
def commitTypes : List (List Char) :=
  ["feat", "fix", "docs", "style", "refactor", "test", "chore", "perf", "ci",
   "build", "revert", "deploy", "deployment", "deployed"].map String.toList

/-- Matcher for `COMMIT_TYPES`: ordered alternation of literal words with full
backtracking into later alternatives (Python `re` semantics). -/
def pCommitType : Matcher Unit := fun s i =>
  commitTypes.flatMap fun w => litCI w s i

/-- Alternatives of `ACTION_WORDS` (jira2pr.py line 257):
`(?:fixes?|closes?|resolves?|refs?|references?|see|re|jira|ticket)`.
Each pair is (literal stem, whether a trailing optional `s?` follows); note
that in `fixes?` the `?` applies to the final `s` only, so the stem is
`fixe` and the alternative matches `fixe` or `fixes` (but not `fix`). -/
def actionWordAlts : List (List Char × Bool) :=
  [("fixe".toList, true), ("close".toList, true), ("resolve".toList, true),
   ("ref".toList, true), ("reference".toList, true), ("see".toList, false),
   ("re".toList, false), ("jira".toList, false), ("ticket".toList, false)]

/-- Matcher for `ACTION_WORDS`: ordered alternation, each alternative a
case-insensitive stem plus an optional case-insensitive `s`. -/
def pActionWord : Matcher Unit := fun s i =>
  actionWordAlts.flatMap fun w =>
    (mthen (litCI w.1)
      (if w.2 then mmap (fun _ => ()) (repCls (fun c => c.toLower = 's') 0 1)
       else mpure ())) s i

/-- Result of one occurrence of `TICKET_PATTERN`: the project-key capture, the
digit capture, and the full text the occurrence consumed. -/
structure TicketM where
  proj : List Char
  num : List Char
  text : List Char
  deriving Repr, DecidableEq

/-- Matcher for `TICKET_PATTERN` (jira2pr.py line 255):
`(?<![A-Za-z])(([A-Za-z]{2,3}))[-\s:]?\s*((\d{1,6}))(?![\d-])`.
The doubled parentheses around `PROJECT_KEY` and `TICKET_NUMBER` produce two
identical capture groups each; `text` is the contiguous substring consumed
(project key, optional separator, optional whitespace, digits). -/
def pTicket : Matcher TicketM :=
  mbind (negLookbehind isAsciiAlpha) fun _ =>
  mbind (repCls isAsciiAlpha 2 3) fun proj =>
  mbind (repCls isSepChar 0 1) fun sep =>
  mbind (starCls isPySpace) fun sp =>
  mbind (repCls isAsciiDigit 1 6) fun num =>
  mbind (negLookahead fun c => isAsciiDigit c || c = '-') fun _ =>
  mpure ⟨proj, num, proj ++ sep ++ sp ++ num⟩

/-- Capture-group list of one `TICKET_PATTERN` occurrence, 4 groups in regex
numbering: outer project, inner project, outer number, inner number. -/
def groups4 (t : TicketM) : List (Option (List Char)) :=
  [some t.proj, some t.proj, some t.num, some t.num]

/-- Pattern 1 `conv_type_ticket` (jira2pr.py line 262):
`^COMMIT_TYPES:\s+TICKET_PATTERN`. -/
def pat_conv_type_ticket : Matcher (List (Option (List Char))) :=
  mthen mbol <| mthen pCommitType <| mthen (litCI [':']) <|
  mthen (plusCls isPySpace) <| mmap groups4 pTicket

/-- Pattern 2 `conv_scope` (jira2pr.py line 265):
`^COMMIT_TYPES\(([^)]*TICKET_PATTERN[^)]*)\)!?:\s*`.  The extra first group
captures the whole scope text. -/
def pat_conv_scope : Matcher (List (Option (List Char))) :=
  mthen mbol <| mthen pCommitType <| mthen (litCI ['(']) <|
  mbind (starCls fun c => !(c = ')')) fun pre =>
  mbind pTicket fun t =>
  mbind (starCls fun c => !(c = ')')) fun post =>
  mthen (litCI [')']) <| mthen (repCls (fun c => c = '!') 0 1) <|
  mthen (litCI [':']) <| mthen (starCls isPySpace) <|
  mpure (some (pre ++ t.text ++ post) :: groups4 t)

/-- Pattern 3 `conv_type_brackets` (jira2pr.py line 268):
`^COMMIT_TYPES:\s+\[\s*TICKET_PATTERN\s*\]`. -/
def pat_conv_type_brackets : Matcher (List (Option (List Char))) :=
  mthen mbol <| mthen pCommitType <| mthen (litCI [':']) <|
  mthen (plusCls isPySpace) <| mthen (litCI ['[']) <| mthen (starCls isPySpace) <|
  mbind pTicket fun t =>
  mthen (starCls isPySpace) <| mthen (litCI [']']) <| mpure (groups4 t)

/-- Pattern 4 `ticket_colon` (jira2pr.py line 271).  The source comment reads
"Ticket ID with colon", but the regex actually used is the bare
`TICKET_PATTERN` with no colon, identical to pattern 8. -/
def pat_ticket_colon : Matcher (List (Option (List Char))) :=
  mmap groups4 pTicket

/-- Pattern 5 `start_simple` (jira2pr.py line 274):
`^TICKET_PATTERN[\s:\-]`. -/
def pat_start_simple : Matcher (List (Option (List Char))) :=
  mthen mbol <|
  mbind pTicket fun t =>
  mthen (repCls (fun c => isPySpace c || c = ':' || c = '-') 1 1) <|
  mpure (groups4 t)

/-- Pattern 6 `ticket_brackets` (jira2pr.py line 277):
`\[\s*TICKET_PATTERN\s*\]`. -/
def pat_ticket_brackets : Matcher (List (Option (List Char))) :=
  mthen (litCI ['[']) <| mthen (starCls isPySpace) <|
  mbind pTicket fun t =>
  mthen (starCls isPySpace) <| mthen (litCI [']']) <| mpure (groups4 t)

/-- Pattern 7 `action_word` (jira2pr.py line 280):
`ACTION_WORDS\s*:?\s*TICKET_PATTERN`. -/
def pat_action_word : Matcher (List (Option (List Char))) :=
  mthen pActionWord <| mthen (starCls isPySpace) <|
  mthen (repCls (fun c => c = ':') 0 1) <| mthen (starCls isPySpace) <|
  mmap groups4 pTicket

/-- Pattern 8 `ticket_only` (jira2pr.py line 283): the bare `TICKET_PATTERN`,
the lowest-priority fallback. -/
def pat_ticket_only : Matcher (List (Option (List Char))) :=
  mmap groups4 pTicket

/-- The ordered pattern table `pattern_definitions` (jira2pr.py lines 260-284). -/
def pattern_definitions : List (Matcher (List (Option (List Char)))) :=
  [pat_conv_type_ticket, pat_conv_scope, pat_conv_type_brackets,
   pat_ticket_colon, pat_start_simple, pat_ticket_brackets,
   pat_action_word, pat_ticket_only]

/-- Scan loop of `re.finditer`: at each position try the matcher; on success
emit the (first, i.e. Python's) match and resume at its end (or one further
for an empty match), otherwise advance one position.  `fuel` bounds the
number of scan steps; `s.length + 1 - i` always suffices. -/
def scanFrom {α : Type} (m : Matcher α) (s : List Char) : Nat → Nat → List α
  | _, 0 => []
  | i, fuel + 1 =>
    if s.length < i then []
    else
      match m s i with
      | [] => scanFrom m s (i + 1) fuel
      | (a, j) :: _ => a :: scanFrom m s (max j (i + 1)) fuel

/-- All non-overlapping matches of `m` in `s`, left to right, as produced by
`re.finditer` (jira2pr.py line 289). -/
def finditer {α : Type} (m : Matcher α) (s : List Char) : List α :=
  scanFrom m s 0 (s.length + 1)

/-- Position test for the regex anchor `$`: end of string, or just before a
final newline (Python semantics without `re.MULTILINE`). -/
def dollarAt (g : List Char) (k : Nat) : Bool :=
  k = g.length || (k + 1 = g.length && g.getD k ' ' = '\n')

/-- Test used at jira2pr.py line 309:
`re.match(r'^[A-Za-z]{2,3}$', group, re.IGNORECASE)` — greedily three letters,
else two, followed by `$`. -/
def pyMatchAlpha23 (g : List Char) : Bool :=
  (3 ≤ runLen isAsciiAlpha g 0 && dollarAt g 3) ||
  (2 ≤ runLen isAsciiAlpha g 0 && dollarAt g 2)

/-- Python `str.isdigit` on the ASCII model: nonempty and all digits. -/
def pyIsdigit (g : List Char) : Bool := !g.isEmpty && g.all isAsciiDigit

/-- Inner loop of the group disambiguation (jira2pr.py lines 312-315): the
first later group that is truthy and all digits becomes the ticket number. -/
def findDigitGroup : List (Option (List Char)) → Option (List Char)
  | [] => none
  | none :: rest => findDigitGroup rest
  | some g :: rest => if pyIsdigit g then some g else findDigitGroup rest

/-- Group disambiguation loop (jira2pr.py lines 303-316): skip falsy groups;
the first group matching `^[A-Za-z]{2,3}$` becomes the project key
(upper-cased, line 310) and the search for the digit group starts after it;
the outer loop breaks there, so if no digit group follows, the match is
discarded (lines 318-320). -/
def findProjNum : List (Option (List Char)) → Option (List Char × List Char)
  | [] => none
  | none :: rest => findProjNum rest
  | some g :: rest =>
    if g.isEmpty then findProjNum rest
    else if pyMatchAlpha23 g then
      match findDigitGroup rest with
      | some n => some (g.map Char.toUpper, n)
      | none => none
    else findProjNum rest

/-- Candidates contributed by one pattern, in left-to-right scan order:
each structural match is passed through the group disambiguation; matches
whose groups cannot be disambiguated are silently dropped (jira2pr.py
lines 291-320). -/
def patternCandidates (m : Matcher (List (Option (List Char)))) (title : List Char) :
    List (List Char × List Char) :=
  (finditer m title).filterMap findProjNum

/-- All candidates of the whole ordered scan: patterns in priority order
P1-P8, and left-to-right within each pattern (jira2pr.py lines 287-316). -/
def allCandidates (title : List Char) : List (List Char × List Char) :=
  pattern_definitions.flatMap fun m => patternCandidates m title

/-- Python truthiness of the optional `prefix` argument: `None` and the empty
string are falsy. -/
def strTruthy : Option String → Bool
  | none => false
  | some s => !(s = "")

/-- Python truthiness of the optional `known_projects` argument: `None` and an
empty collection are falsy. -/
def listTruthy : Option (List String) → Bool
  | none => false
  | some l => !(l = [])

/-- Python `str.upper` on the ASCII model, character by character. -/
def strUpper (s : String) : List Char := s.toList.map Char.toUpper

/-- Upper-cased known-projects set (jira2pr.py lines 233-234; the conversion
only happens when the argument is truthy, but it is only consulted then). -/
def knownUpper (known_projects : Option (List String)) : List (List Char) :=
  (known_projects.getD []).map strUpper

/-- Filters applied to a disambiguated candidate (jira2pr.py lines 327-333):
reject when `prefix` is truthy and the upper-cased project key does not start
with the upper-cased prefix; reject when `known_projects` is truthy and the
project key is not in the upper-cased set. -/
def passesFilters (pfx : Option String) (known_projects : Option (List String))
    (proj : List Char) : Bool :=
  (!strTruthy pfx || List.isPrefixOf (strUpper (pfx.getD "")) proj) &&
  (!listTruthy known_projects || (knownUpper known_projects).contains proj)

/-- Canonical ticket id `f"{project_key}-{ticket_number}"` (jira2pr.py
line 323). -/
def ticketIdOf (proj num : List Char) : List Char := proj ++ '-' :: num

/-- Main accumulation loop over the ordered candidates (jira2pr.py
lines 326-338): apply the two filters, deduplicate against the tickets found
so far, and when `first_only` is set return the accepted ticket immediately
(first component); otherwise collect it (second component). -/
def extractLoop (pfx : Option String) (known_projects : Option (List String))
    (first_only : Bool) :
    List (List Char × List Char) → List (List Char) → Option (List Char) × List (List Char)
  | [], found => (none, found)
  | (proj, num) :: rest, found =>
    let tid := ticketIdOf proj num
    if !passesFilters pfx known_projects proj then
      extractLoop pfx known_projects first_only rest found
    else if tid ∈ found then
      extractLoop pfx known_projects first_only rest found
    else if first_only then (some tid, found ++ [tid])
    else extractLoop pfx known_projects first_only rest (found ++ [tid])

/-- Return type of `extract_ticket_ids_from_title`: an optional single ticket
when `first_only` is true, the list of all tickets otherwise. -/
inductive ExtractResult where
  | one : Option String → ExtractResult
  | many : List String → ExtractResult
  deriving Repr, DecidableEq

/-- Embedding of `GitHubPR.extract_ticket_ids_from_title` (jira2pr.py
lines 209-350).  An empty (falsy) title returns immediately (lines 229-230).
Otherwise the eight patterns are processed in order; with `first_only` the
first accepted candidate is returned (line 338), and after the loop
`found_tickets[0] if found_tickets else None` reduces to `None` since any
accepted candidate would already have returned; without `first_only` the full
deduplicated list is returned (line 350). -/
def extract_ticket_ids_from_title (title : String) (pfx : Option String)
    (known_projects : Option (List String)) (first_only : Bool) : ExtractResult :=
  if title = "" then (if first_only then .one none else .many [])
  else
    let r := extractLoop pfx known_projects first_only (allCandidates title.toList) []
    if first_only then .one (r.1.map fun t => String.mk t)
    else .many (r.2.map fun t => String.mk t)

/-- Match of `re.match(r'^([A-Z]+)[-]?([0-9]+)$', t)` (jira2pr.py line 35).
The classes `[A-Z]`, `[-]` and `[0-9]` are pairwise disjoint, so the greedy
quantifiers never profit from backtracking and the match is the maximal-run
decomposition; `$` accepts the end of the string or a final newline. -/
def matchProjectNumber (t : List Char) : Option (List Char × List Char) :=
  let p := t.takeWhile isUpperAZ
  let r1 := t.drop p.length
  let r2 := if r1.head? = some '-' then r1.tail else r1
  let n := r2.takeWhile isAsciiDigit
  let r3 := r2.drop n.length
  if !p.isEmpty && !n.isEmpty && (r3 = [] || r3 = ['\n']) then some (p, n) else none

/-- Composition `ticket_id.upper().replace(" ", "")` (jira2pr.py line 28):
ASCII upper-casing followed by removal of every space character. -/
def upperStrip (l : List Char) : List Char :=
  (l.map Char.toUpper).filter fun c => !(c = ' ')

/-- Embedding of `normalize_ticket_id` (jira2pr.py lines 17-40): upper-case,
remove spaces; return unchanged if a hyphen is present; otherwise split into
letters and digits with the anchored regex and rejoin with a hyphen; if the
regex does not match, return the upper-cased, space-stripped input. -/
def normalize_ticket_id (ticket_id : String) : String :=
  if '-' ∈ upperStrip ticket_id.toList then String.mk (upperStrip ticket_id.toList)
  else
    match matchProjectNumber (upperStrip ticket_id.toList) with
    | some (p, n) => String.mk (p ++ '-' :: n)
    | none => String.mk (upperStrip ticket_id.toList)

/-! Membership lemmas for the matcher combinators. -/

theorem mem_mpure {α : Type} {a : α} {s : List Char} {i : Nat} {y : α × Nat} :
    y ∈ mpure a s i ↔ y = (a, i) := by
  simp [mpure]

theorem mem_mbind {α β : Type} {m : Matcher α} {f : α → Matcher β} {s : List Char}
    {i : Nat} {y : β × Nat} :
    y ∈ mbind m f s i ↔ ∃ x ∈ m s i, y ∈ f x.1 s x.2 := by
  simp [mbind]

theorem mem_mthen {α β : Type} {m : Matcher α} {q : Matcher β} {s : List Char}
    {i : Nat} {y : β × Nat} :
    y ∈ mthen m q s i ↔ ∃ x ∈ m s i, y ∈ q s x.2 := by
  simp [mthen, mem_mbind]

theorem mem_mmap {α β : Type} {g : α → β} {m : Matcher α} {s : List Char}
    {i : Nat} {y : β × Nat} :
    y ∈ mmap g m s i ↔ ∃ x ∈ m s i, y = (g x.1, x.2) := by
  simp [mmap, mem_mbind, mem_mpure]

/-! Soundness of the class-repetition matcher: whatever `X{lo,hi}` captures
has between `lo` and `hi` characters, all in the class `X`. -/

theorem all_take_of_le_takeWhile {p : Char → Bool} :
    ∀ {l : List Char} {k : Nat}, k ≤ (l.takeWhile p).length → (l.take k).all p = true := by
  intro l
  induction l with
  | nil => intro k h; simp
  | cons a l ih =>
    intro k h
    cases k with
    | zero => simp
    | succ k =>
      rw [List.takeWhile_cons] at h
      by_cases hpa : p a
      · simp only [if_pos hpa, List.length_cons, Nat.succ_le_succ_iff] at h
        simp [hpa, ih h]
      · simp [if_neg hpa] at h

theorem takeWhile_length_le {p : Char → Bool} :
    ∀ (l : List Char), (l.takeWhile p).length ≤ l.length := by
  intro l
  induction l with
  | nil => simp
  | cons a l ih =>
    rw [List.takeWhile_cons]
    by_cases hpa : p a
    · simp only [if_pos hpa, List.length_cons]; omega
    · simp [if_neg hpa]

theorem repCls_sound {p : Char → Bool} {lo hi : Nat} {s : List Char} {i : Nat}
    {g : List Char} {j : Nat} (h : (g, j) ∈ repCls p lo hi s i) :
    lo ≤ g.length ∧ g.length ≤ hi ∧ g.all p = true := by
  simp only [repCls, List.mem_map, List.mem_range] at h
  obtain ⟨t, ht, heq⟩ := h
  obtain ⟨hg, -⟩ := Prod.mk.injEq .. ▸ heq
  set m := min (runLen p s i) hi with hm
  have hrun : m ≤ runLen p s i := Nat.min_le_left _ _
  have hhi : m ≤ hi := Nat.min_le_right _ _
  have hlen : runLen p s i ≤ (s.drop i).length := takeWhile_length_le _
  have hglen : g.length = m - t := by
    rw [← hg, List.length_take]; omega
  refine ⟨by omega, by omega, ?_⟩
  rw [← hg]
  exact all_take_of_le_takeWhile (by unfold runLen at *; omega)

/-- Well-formedness of one `TICKET_PATTERN` capture: the project key is 2-3
letters, the number 1-6 digits. -/
def ticketOK (t : TicketM) : Prop :=
  2 ≤ t.proj.length ∧ t.proj.length ≤ 3 ∧ t.proj.all isAsciiAlpha = true ∧
  1 ≤ t.num.length ∧ t.num.length ≤ 6 ∧ t.num.all isAsciiDigit = true

theorem pTicket_sound {t : TicketM} {j : Nat} {s : List Char} {i : Nat}
    (h : (t, j) ∈ pTicket s i) :
    ticketOK t ∧ ∃ a, t.text = a ++ t.num := by
  simp only [pTicket, mem_mbind, mem_mpure] at h
  obtain ⟨x1, -, x2, hx2, x3, -, x4, -, x5, hx5, x6, -, heq⟩ := h
  obtain ⟨hproj1, hproj2, hproj3⟩ := repCls_sound (show (x2.1, x2.2) ∈ _ from hx2)
  obtain ⟨hnum1, hnum2, hnum3⟩ := repCls_sound (show (x5.1, x5.2) ∈ _ from hx5)
  have hteq : t = ⟨x2.1, x5.1, x2.1 ++ x3.1 ++ x4.1 ++ x5.1⟩ := congrArg Prod.fst heq
  subst hteq
  refine ⟨⟨hproj1, hproj2, hproj3, hnum1, hnum2, hnum3⟩, ⟨x2.1 ++ x3.1 ++ x4.1, by simp⟩⟩

/-- Well-formedness of a capture-group list produced by one of the eight
patterns: either the four groups of a bare `TICKET_PATTERN`, or a scope group
(which contains the ticket's digits) followed by those four groups. -/
def GroupsOK (gs : List (Option (List Char))) : Prop :=
  (∃ t, ticketOK t ∧ gs = groups4 t) ∨
  (∃ g t, ticketOK t ∧ (∃ c ∈ g, isAsciiDigit c = true) ∧ gs = some g :: groups4 t)

theorem exists_digit_mem_text {t : TicketM} (h : ticketOK t)
    (hx : ∃ a, t.text = a ++ t.num) {pre post : List Char} :
    ∃ c ∈ pre ++ t.text ++ post, isAsciiDigit c = true := by
  obtain ⟨a, ha⟩ := hx
  obtain ⟨-, -, -, hn1, -, hn3⟩ := h
  obtain ⟨c, tl, hcons⟩ : ∃ c tl, t.num = c :: tl := by
    cases hnum : t.num with
    | nil => rw [hnum] at hn1; simp at hn1
    | cons c tl => exact ⟨c, tl, rfl⟩
  refine ⟨c, by simp [ha, hcons], ?_⟩
  have hcmem : c ∈ t.num := by rw [hcons]; exact List.mem_cons_self _ _
  exact List.all_eq_true.mp hn3 c hcmem

theorem pat1_groupsOK {gs : List (Option (List Char))} {e : Nat} {s : List Char} {i : Nat}
    (h : (gs, e) ∈ pat_conv_type_ticket s i) : GroupsOK gs := by
  simp only [pat_conv_type_ticket, mem_mthen, mem_mmap] at h
  obtain ⟨x1, -, x2, -, x3, -, x4, -, ⟨t, jt⟩, ht, heq⟩ := h
  cases heq
  exact Or.inl ⟨t, (pTicket_sound ht).1, rfl⟩

theorem pat2_groupsOK {gs : List (Option (List Char))} {e : Nat} {s : List Char} {i : Nat}
    (h : (gs, e) ∈ pat_conv_scope s i) : GroupsOK gs := by
  simp only [pat_conv_scope, mem_mthen, mem_mbind, mem_mpure] at h
  obtain ⟨x1, -, x2, -, x3, -, pre, -, ⟨t, jt⟩, ht, post, -, x4, -, x5, -, x6, -, x7, -, heq⟩ := h
  cases heq
  obtain ⟨htOK, htext⟩ := pTicket_sound ht
  exact Or.inr ⟨_, t, htOK, exists_digit_mem_text htOK htext, rfl⟩

theorem pat3_groupsOK {gs : List (Option (List Char))} {e : Nat} {s : List Char} {i : Nat}
    (h : (gs, e) ∈ pat_conv_type_brackets s i) : GroupsOK gs := by
  simp only [pat_conv_type_brackets, mem_mthen, mem_mbind, mem_mpure] at h
  obtain ⟨x1, -, x2, -, x3, -, x4, -, x5, -, x6, -, ⟨t, jt⟩, ht, x7, -, x8, -, heq⟩ := h
  cases heq
  exact Or.inl ⟨t, (pTicket_sound ht).1, rfl⟩

theorem pat4_groupsOK {gs : List (Option (List Char))} {e : Nat} {s : List Char} {i : Nat}
    (h : (gs, e) ∈ pat_ticket_colon s i) : GroupsOK gs := by
  simp only [pat_ticket_colon, mem_mmap] at h
  obtain ⟨⟨t, jt⟩, ht, heq⟩ := h
  cases heq
  exact Or.inl ⟨t, (pTicket_sound ht).1, rfl⟩

theorem pat5_groupsOK {gs : List (Option (List Char))} {e : Nat} {s : List Char} {i : Nat}
    (h : (gs, e) ∈ pat_start_simple s i) : GroupsOK gs := by
  simp only [pat_start_simple, mem_mthen, mem_mbind, mem_mpure] at h
  obtain ⟨x1, -, ⟨t, jt⟩, ht, x2, -, heq⟩ := h
  cases heq
  exact Or.inl ⟨t, (pTicket_sound ht).1, rfl⟩

theorem pat6_groupsOK {gs : List (Option (List Char))} {e : Nat} {s : List Char} {i : Nat}
    (h : (gs, e) ∈ pat_ticket_brackets s i) : GroupsOK gs := by
  simp only [pat_ticket_brackets, mem_mthen, mem_mbind, mem_mpure] at h
  obtain ⟨x1, -, x2, -, ⟨t, jt⟩, ht, x3, -, x4, -, heq⟩ := h
  cases heq
  exact Or.inl ⟨t, (pTicket_sound ht).1, rfl⟩

theorem pat7_groupsOK {gs : List (Option (List Char))} {e : Nat} {s : List Char} {i : Nat}
    (h : (gs, e) ∈ pat_action_word s i) : GroupsOK gs := by
  simp only [pat_action_word, mem_mthen, mem_mmap] at h
  obtain ⟨x1, -, x2, -, x3, -, x4, -, ⟨t, jt⟩, ht, heq⟩ := h
  cases heq
  exact Or.inl ⟨t, (pTicket_sound ht).1, rfl⟩

theorem pat8_groupsOK {gs : List (Option (List Char))} {e : Nat} {s : List Char} {i : Nat}
    (h : (gs, e) ∈ pat_ticket_only s i) : GroupsOK gs := by
  simp only [pat_ticket_only, mem_mmap] at h
  obtain ⟨⟨t, jt⟩, ht, heq⟩ := h
  cases heq
  exact Or.inl ⟨t, (pTicket_sound ht).1, rfl⟩

/-! The finditer scan only emits values the underlying matcher produced. -/

theorem mem_scanFrom {α : Type} {m : Matcher α} {s : List Char} {a : α} :
    ∀ {fuel i : Nat}, a ∈ scanFrom m s i fuel → ∃ j x, (a, x) ∈ m s j := by
  intro fuel
  induction fuel with
  | zero => intro i h; simp [scanFrom] at h
  | succ fuel ih =>
    intro i h
    rw [scanFrom] at h
    split at h
    · simp at h
    · split at h
      · exact ih h
      · rename_i b j rest heq
        rcases List.mem_cons.mp h with rfl | h2
        · exact ⟨i, j, by rw [heq]; exact List.mem_cons_self _ _⟩
        · exact ih h2

theorem mem_finditer {α : Type} {m : Matcher α} {s : List Char} {a : α}
    (h : a ∈ finditer m s) : ∃ j x, (a, x) ∈ m s j :=
  mem_scanFrom h

theorem patternCandidates_mem {m : Matcher (List (Option (List Char)))} {title : List Char}
    {c : List Char × List Char} (h : c ∈ patternCandidates m title) :
    ∃ gs e j, (gs, e) ∈ m title j ∧ findProjNum gs = some c := by
  simp only [patternCandidates, List.mem_filterMap] at h
  obtain ⟨gs, hgs, hfp⟩ := h
  obtain ⟨j, x, hm⟩ := mem_finditer hgs
  exact ⟨gs, x, j, hm, hfp⟩

/-! Character-class facts and facts about Python's ASCII upper-casing. -/

theorem not_digit_of_alpha {c : Char} (h : isAsciiAlpha c = true) : isAsciiDigit c = false := by
  simp only [isAsciiAlpha, Bool.or_eq_true, Bool.and_eq_true, decide_eq_true_eq] at h
  simp only [isAsciiDigit, Bool.and_eq_false_iff, decide_eq_false_iff_not]
  omega

theorem toUpper_eq (c : Char) : Char.toUpper c =
    if 97 ≤ c.toNat ∧ c.toNat ≤ 122 then Char.ofNat (c.toNat - 32) else c := rfl

theorem toNat_ofNat_sub (c : Char) (h1 : 97 ≤ c.toNat) (h2 : c.toNat ≤ 122) :
    (Char.ofNat (c.toNat - 32)).toNat = c.toNat - 32 := by
  set m := c.toNat with hm
  interval_cases m <;> decide

theorem toUpper_of_not_lower {c : Char} (h : ¬(97 ≤ c.toNat ∧ c.toNat ≤ 122)) :
    Char.toUpper c = c := by
  rw [toUpper_eq, if_neg h]

theorem toUpper_toUpper (c : Char) : Char.toUpper (Char.toUpper c) = Char.toUpper c := by
  rw [toUpper_eq c]
  by_cases h : 97 ≤ c.toNat ∧ c.toNat ≤ 122
  · rw [if_pos h]
    refine toUpper_of_not_lower ?_
    rw [toNat_ofNat_sub c h.1 h.2]
    omega
  · rw [if_neg h]
    exact toUpper_of_not_lower h

theorem upperAZ_toUpper_of_alpha {c : Char} (h : isAsciiAlpha c = true) :
    isUpperAZ (Char.toUpper c) = true := by
  simp only [isAsciiAlpha, Bool.or_eq_true, Bool.and_eq_true, decide_eq_true_eq] at h
  rw [toUpper_eq]
  rcases h with ⟨h1, h2⟩ | ⟨h1, h2⟩
  · rw [if_neg (by omega)]
    simp only [isUpperAZ, Bool.and_eq_true, decide_eq_true_eq]
    omega
  · rw [if_pos ⟨h1, h2⟩]
    simp only [isUpperAZ, Bool.and_eq_true, decide_eq_true_eq]
    rw [toNat_ofNat_sub c h1 h2]
    omega

/-! Behaviour of the group-disambiguation loop on well-formed groups. -/

theorem drop_of_dollarAt {g : List Char} {k : Nat} (h : dollarAt g k = true) :
    g.drop k = [] ∨ g.drop k = ['\n'] := by
  simp only [dollarAt, Bool.or_eq_true, Bool.and_eq_true, decide_eq_true_eq] at h
  rcases h with h | ⟨h1, h2⟩
  · left; exact List.drop_eq_nil_of_le (le_of_eq h.symm)
  · right
    have hk : k < g.length := by omega
    rw [List.drop_eq_getElem_cons hk, List.drop_eq_nil_of_le (by omega : g.length ≤ k + 1)]
    rw [List.getD_eq_getElem g ' ' hk] at h2
    rw [h2]

theorem mem_of_pyMatchAlpha23 {g : List Char} {c : Char} (h : pyMatchAlpha23 g = true)
    (hc : c ∈ g) : isAsciiAlpha c = true ∨ c = '\n' := by
  simp only [pyMatchAlpha23, Bool.or_eq_true, Bool.and_eq_true, decide_eq_true_eq] at h
  have main : ∀ k : Nat, k ≤ runLen isAsciiAlpha g 0 → dollarAt g k = true →
      isAsciiAlpha c = true ∨ c = '\n' := by
    intro k hk hd
    have hall : (g.take k).all isAsciiAlpha = true := by
      refine all_take_of_le_takeWhile ?_
      unfold runLen at hk
      rwa [List.drop_zero] at hk
    have hsplit := List.take_append_drop k g
    rw [← hsplit] at hc
    rcases List.mem_append.mp hc with hmem | hmem
    · exact Or.inl (List.all_eq_true.mp hall c hmem)
    · rcases drop_of_dollarAt hd with hdrop | hdrop <;> rw [hdrop] at hmem
      · simp at hmem
      · simp only [List.mem_singleton] at hmem
        exact Or.inr hmem
  rcases h with ⟨h1, h2⟩ | ⟨h1, h2⟩
  · exact main 3 h1 h2
  · exact main 2 h1 h2

theorem pyMatchAlpha23_false_of_digit {g : List Char} {c : Char} (hc : c ∈ g)
    (hd : isAsciiDigit c = true) : pyMatchAlpha23 g = false := by
  cases hpm : pyMatchAlpha23 g with
  | false => rfl
  | true =>
    rcases mem_of_pyMatchAlpha23 hpm hc with h | h
    · rw [not_digit_of_alpha h] at hd; exact absurd hd (by simp)
    · subst h; exact absurd hd (by decide)

theorem pyMatchAlpha23_of_shape {g : List Char} (h1 : 2 ≤ g.length) (h2 : g.length ≤ 3)
    (h3 : g.all isAsciiAlpha = true) : pyMatchAlpha23 g = true := by
  have hself : g.takeWhile isAsciiAlpha = g :=
    List.takeWhile_eq_self_iff.mpr fun x hx => List.all_eq_true.mp h3 x hx
  have hrun : runLen isAsciiAlpha g 0 = g.length := by
    simp [runLen, hself]
  rcases (by omega : g.length = 2 ∨ g.length = 3) with h | h <;>
    simp [pyMatchAlpha23, dollarAt, hrun, h]

theorem pyIsdigit_false_of_alpha {g : List Char} (h1 : 1 ≤ g.length)
    (h2 : g.all isAsciiAlpha = true) : pyIsdigit g = false := by
  cases g with
  | nil => simp at h1
  | cons c tl =>
    simp only [List.all_cons, Bool.and_eq_true] at h2
    simp [pyIsdigit, not_digit_of_alpha h2.1]

theorem pyIsdigit_of_ticketOK {t : TicketM} (h : ticketOK t) : pyIsdigit t.num = true := by
  obtain ⟨-, -, -, hn1, -, hn3⟩ := h
  cases hnum : t.num with
  | nil => rw [hnum] at hn1; simp at hn1
  | cons a tl =>
    rw [hnum] at hn3
    simp [pyIsdigit, hn3]

theorem findDigitGroup_tail {t : TicketM} (h : ticketOK t) :
    findDigitGroup [some t.proj, some t.num, some t.num] = some t.num := by
  have h1 := h.1
  have hp := pyIsdigit_false_of_alpha (by omega) h.2.2.1
  simp [findDigitGroup, hp, pyIsdigit_of_ticketOK h]

theorem findProjNum_groups4 {t : TicketM} (h : ticketOK t) :
    findProjNum (groups4 t) = some (t.proj.map Char.toUpper, t.num) := by
  have h1 := h.1
  have hne : t.proj.isEmpty = false := by
    rcases hp : t.proj with - | ⟨a, tl⟩
    · rw [hp] at h1; simp at h1
    · rfl
  simp [findProjNum, groups4, hne, pyMatchAlpha23_of_shape h.1 h.2.1 h.2.2.1,
    findDigitGroup_tail h]

theorem findProjNum_scope {g : List Char} {t : TicketM} (h : ticketOK t)
    (hg : ∃ c ∈ g, isAsciiDigit c = true) :
    findProjNum (some g :: groups4 t) = some (t.proj.map Char.toUpper, t.num) := by
  obtain ⟨c, hc, hcd⟩ := hg
  have hfalse := pyMatchAlpha23_false_of_digit hc hcd
  have h4 := findProjNum_groups4 h
  by_cases hge : g.isEmpty
  · rw [findProjNum, if_pos hge]
    exact h4
  · rw [findProjNum, if_neg hge, if_neg (by rw [hfalse]; simp)]
    exact h4

/-- Shape of an accepted candidate: upper-cased 2-3 letter project key, 1-6
digit number. -/
def candidateOK (c : List Char × List Char) : Prop :=
  2 ≤ c.1.length ∧ c.1.length ≤ 3 ∧ c.1.all isUpperAZ = true ∧
  1 ≤ c.2.length ∧ c.2.length ≤ 6 ∧ c.2.all isAsciiDigit = true

theorem candOK_of_ticketOK {t : TicketM} (h : ticketOK t) :
    candidateOK (t.proj.map Char.toUpper, t.num) := by
  obtain ⟨h1, h2, h3, hn1, hn2, hn3⟩ := h
  refine ⟨by simpa using h1, by simpa using h2, ?_, hn1, hn2, hn3⟩
  rw [List.all_map]
  refine List.all_eq_true.mpr fun x hx => ?_
  exact upperAZ_toUpper_of_alpha (List.all_eq_true.mp h3 x hx)

theorem findProjNum_shape {gs : List (Option (List Char))} {c : List Char × List Char}
    (hok : GroupsOK gs) (h : findProjNum gs = some c) : candidateOK c := by
  rcases hok with ⟨t, ht, rfl⟩ | ⟨g, t, ht, hg, rfl⟩
  · rw [findProjNum_groups4 ht] at h
    cases h
    exact candOK_of_ticketOK ht
  · rw [findProjNum_scope ht hg] at h
    cases h
    exact candOK_of_ticketOK ht

theorem allCandidates_shape {title : List Char} {c : List Char × List Char}
    (h : c ∈ allCandidates title) : candidateOK c := by
  simp only [allCandidates, pattern_definitions, List.mem_flatMap, List.mem_cons,
    List.not_mem_nil, or_false] at h
  obtain ⟨m, hm, hc⟩ := h
  obtain ⟨gs, e, j, hmem, hfp⟩ := patternCandidates_mem hc
  have hok : GroupsOK gs := by
    rcases hm with rfl | rfl | rfl | rfl | rfl | rfl | rfl | rfl
    · exact pat1_groupsOK hmem
    · exact pat2_groupsOK hmem
    · exact pat3_groupsOK hmem
    · exact pat4_groupsOK hmem
    · exact pat5_groupsOK hmem
    · exact pat6_groupsOK hmem
    · exact pat7_groupsOK hmem
    · exact pat8_groupsOK hmem
  exact findProjNum_shape hok hfp

/-! Behaviour of the main accumulation loop. -/

theorem nodup_append_singleton {l : List (List Char)} {a : List Char} (h : l.Nodup)
    (ha : a ∉ l) : (l ++ [a]).Nodup := by
  rw [List.nodup_append]
  refine ⟨h, List.nodup_singleton _, fun x hx hxa => ?_⟩
  simp only [List.mem_singleton] at hxa
  subst hxa
  exact ha hx

theorem extractLoop_first_eq (pfx : Option String) (kp : Option (List String)) :
    ∀ cands : List (List Char × List Char),
      (extractLoop pfx kp true cands []).1 =
        ((cands.filter fun c => passesFilters pfx kp c.1).head?).map
          fun c => ticketIdOf c.1 c.2 := by
  intro cands
  induction cands with
  | nil => simp [extractLoop]
  | cons c rest ih =>
    obtain ⟨proj, num⟩ := c
    simp only [extractLoop, List.filter_cons]
    by_cases hp : passesFilters pfx kp proj
    · simp [hp]
    · simp [hp, ih]

theorem extractLoop_nodup (pfx : Option String) (kp : Option (List String)) (fo : Bool) :
    ∀ (cands : List (List Char × List Char)) (found : List (List Char)), found.Nodup →
      (extractLoop pfx kp fo cands found).2.Nodup := by
  intro cands
  induction cands with
  | nil => intro found hf; simpa [extractLoop] using hf
  | cons c rest ih =>
    intro found hf
    obtain ⟨proj, num⟩ := c
    simp only [extractLoop]
    split_ifs with h1 h2 h3
    · exact ih found hf
    · exact ih found hf
    · exact nodup_append_singleton hf h2
    · exact ih _ (nodup_append_singleton hf h2)

theorem extractLoop_many_mem (pfx : Option String) (kp : Option (List String)) (fo : Bool) :
    ∀ (cands : List (List Char × List Char)) (found : List (List Char)) {r : List Char},
      r ∈ (extractLoop pfx kp fo cands found).2 →
      r ∈ found ∨ ∃ c ∈ cands, r = ticketIdOf c.1 c.2 := by
  intro cands
  induction cands with
  | nil => intro found r h; left; simpa [extractLoop] using h
  | cons c rest ih =>
    intro found r h
    obtain ⟨proj, num⟩ := c
    simp only [extractLoop] at h
    split_ifs at h with h1 h2 h3
    · rcases ih found h with hf | ⟨c2, hc2, hr⟩
      · exact Or.inl hf
      · exact Or.inr ⟨c2, List.mem_cons_of_mem _ hc2, hr⟩
    · rcases ih found h with hf | ⟨c2, hc2, hr⟩
      · exact Or.inl hf
      · exact Or.inr ⟨c2, List.mem_cons_of_mem _ hc2, hr⟩
    · simp only [List.mem_append, List.mem_singleton] at h
      rcases h with hf | rfl
      · exact Or.inl hf
      · exact Or.inr ⟨(proj, num), List.mem_cons_self _ _, rfl⟩
    · rcases ih _ h with hf | ⟨c2, hc2, hr⟩
      · simp only [List.mem_append, List.mem_singleton] at hf
        rcases hf with hf | rfl
        · exact Or.inl hf
        · exact Or.inr ⟨(proj, num), List.mem_cons_self _ _, rfl⟩
      · exact Or.inr ⟨c2, List.mem_cons_of_mem _ hc2, hr⟩

theorem extractLoop_first_mem (pfx : Option String) (kp : Option (List String)) :
    ∀ (cands : List (List Char × List Char)) (found : List (List Char)) {r : List Char},
      (extractLoop pfx kp true cands found).1 = some r →
      ∃ c ∈ cands, r = ticketIdOf c.1 c.2 ∧ passesFilters pfx kp c.1 = true := by
  intro cands
  induction cands with
  | nil => intro found r h; simp [extractLoop] at h
  | cons c rest ih =>
    intro found r h
    obtain ⟨proj, num⟩ := c
    simp only [extractLoop] at h
    split_ifs at h with h1 h2
    · obtain ⟨c2, hc2, hr⟩ := ih found h
      exact ⟨c2, List.mem_cons_of_mem _ hc2, hr⟩
    · obtain ⟨c2, hc2, hr⟩ := ih found h
      exact ⟨c2, List.mem_cons_of_mem _ hc2, hr⟩
    · simp only [Option.some.injEq] at h
      subst h
      refine ⟨(proj, num), List.mem_cons_self _ _, rfl, ?_⟩
      simpa using h1

/-! Lifting the loop lemmas through `extract_ticket_ids_from_title`. -/

theorem stringMk_injective : Function.Injective String.mk := by
  intro a b h
  injection h

theorem allCandidates_nil : allCandidates [] = [] := by decide

theorem extract_first_eq (title : String) (pfx : Option String) (kp : Option (List String)) :
    extract_ticket_ids_from_title title pfx kp true =
      .one ((((allCandidates title.toList).filter fun c => passesFilters pfx kp c.1).head?).map
        fun c => String.mk (ticketIdOf c.1 c.2)) := by
  unfold extract_ticket_ids_from_title
  by_cases ht : title = ""
  · subst ht
    rw [if_pos rfl]
    simp [allCandidates_nil]
  · rw [if_neg ht]
    simp only [if_pos rfl, extractLoop_first_eq pfx kp]
    cases ((allCandidates title.toList).filter fun c => passesFilters pfx kp c.1).head? <;> simp

theorem extract_many_eq (title : String) (pfx : Option String) (kp : Option (List String))
    (ht : title ≠ "") :
    extract_ticket_ids_from_title title pfx kp false =
      .many ((extractLoop pfx kp false (allCandidates title.toList) []).2.map String.mk) := by
  unfold extract_ticket_ids_from_title
  rw [if_neg ht]
  simp

theorem extract_many_nodup (title : String) (pfx : Option String) (kp : Option (List String))
    (l : List String) (h : extract_ticket_ids_from_title title pfx kp false = .many l) :
    l.Nodup := by
  unfold extract_ticket_ids_from_title at h
  by_cases ht : title = ""
  · rw [if_pos ht] at h
    simp only [if_neg (by simp : ¬(false = true))] at h
    injection h with h2
    subst h2
    exact List.nodup_nil
  · rw [if_neg ht] at h
    simp only [if_neg (by simp : ¬(false = true))] at h
    injection h with h2
    subst h2
    exact ((extractLoop_nodup pfx kp false _ [] List.nodup_nil).map stringMk_injective)

theorem extract_many_mem (title : String) (pfx : Option String) (kp : Option (List String))
    (l : List String) (r : String) (h : extract_ticket_ids_from_title title pfx kp false = .many l)
    (hr : r ∈ l) : ∃ c ∈ allCandidates title.toList, r = String.mk (ticketIdOf c.1 c.2) := by
  unfold extract_ticket_ids_from_title at h
  by_cases ht : title = ""
  · rw [if_pos ht] at h
    simp only [if_neg (by simp : ¬(false = true))] at h
    injection h with h2
    subst h2
    simp at hr
  · rw [if_neg ht] at h
    simp only [if_neg (by simp : ¬(false = true))] at h
    injection h with h2
    subst h2
    simp only [List.mem_map] at hr
    obtain ⟨t, hmem, hr⟩ := hr
    rcases extractLoop_many_mem pfx kp false _ [] hmem with hf | ⟨c, hc, hteq⟩
    · simp at hf
    · exact ⟨c, hc, by rw [← hr, hteq]⟩

theorem extract_first_mem (title : String) (pfx : Option String) (kp : Option (List String))
    (r : String) (h : extract_ticket_ids_from_title title pfx kp true = .one (some r)) :
    ∃ c ∈ allCandidates title.toList, r = String.mk (ticketIdOf c.1 c.2) ∧
      passesFilters pfx kp c.1 = true := by
  rw [extract_first_eq title pfx kp] at h
  injection h with h2
  rcases hh : ((allCandidates title.toList).filter fun c => passesFilters pfx kp c.1).head? with - | c
  · rw [hh] at h2; simp at h2
  · rw [hh] at h2
    simp only [Option.map_some', Option.some.injEq] at h2
    have hc := List.mem_filter.mp (List.mem_of_mem_head? hh)
    exact ⟨c, hc.1, h2.symm, hc.2⟩

/-! Facts about `normalize_ticket_id`. -/

theorem toList_mk (l : List Char) : (String.mk l).toList = l := rfl

theorem map_fix {f : Char → Char} : ∀ {l : List Char}, (∀ x ∈ l, f x = x) → l.map f = l := by
  intro l
  induction l with
  | nil => intro; rfl
  | cons a l ih =>
    intro h
    rw [List.map_cons, h a (List.mem_cons_self a l),
      ih fun x hx => h x (List.mem_cons_of_mem a hx)]

theorem toUpper_of_upperAZ {c : Char} (h : isUpperAZ c = true) : Char.toUpper c = c := by
  simp only [isUpperAZ, Bool.and_eq_true, decide_eq_true_eq] at h
  exact toUpper_of_not_lower (by omega)

theorem toUpper_of_digit {c : Char} (h : isAsciiDigit c = true) : Char.toUpper c = c := by
  simp only [isAsciiDigit, Bool.and_eq_true, decide_eq_true_eq] at h
  exact toUpper_of_not_lower (by omega)

theorem ne_space_of_upperAZ {c : Char} (h : isUpperAZ c = true) : c ≠ ' ' := by
  intro he
  subst he
  exact absurd h (by decide)

theorem ne_space_of_digit {c : Char} (h : isAsciiDigit c = true) : c ≠ ' ' := by
  intro he
  subst he
  exact absurd h (by decide)

theorem upperStrip_idem (l : List Char) : upperStrip (upperStrip l) = upperStrip l := by
  unfold upperStrip
  have h1 : (((l.map Char.toUpper).filter fun c => !(c = ' ')).map Char.toUpper) =
      ((l.map Char.toUpper).filter fun c => !(c = ' ')) := by
    refine map_fix fun x hx => ?_
    obtain ⟨c, -, rfl⟩ := List.mem_map.mp (List.mem_of_mem_filter hx)
    exact toUpper_toUpper c
  rw [h1]
  exact List.filter_eq_self.mpr fun a ha => (List.mem_filter.mp ha).2

theorem matchProjectNumber_sound {u p n : List Char}
    (h : matchProjectNumber u = some (p, n)) :
    p.all isUpperAZ = true ∧ n.all isAsciiDigit = true := by
  simp only [matchProjectNumber] at h
  split at h
  · split at h
    · injection h with h2
      cases h2
      exact ⟨List.all_eq_true.mpr fun x hx => List.mem_takeWhile_imp hx,
        List.all_eq_true.mpr fun x hx => List.mem_takeWhile_imp hx⟩
    · exact absurd h (by simp)
  · split at h
    · injection h with h2
      cases h2
      exact ⟨List.all_eq_true.mpr fun x hx => List.mem_takeWhile_imp hx,
        List.all_eq_true.mpr fun x hx => List.mem_takeWhile_imp hx⟩
    · exact absurd h (by simp)

theorem normalize_of_hyphen {l : List Char} (hfix : upperStrip l = l) (hh : '-' ∈ l) :
    normalize_ticket_id (String.mk l) = String.mk l := by
  unfold normalize_ticket_id
  rw [toList_mk, hfix, if_pos hh]

theorem normalize_of_nomatch {l : List Char} (hfix : upperStrip l = l) (hh : '-' ∉ l)
    (hm : matchProjectNumber l = none) :
    normalize_ticket_id (String.mk l) = String.mk l := by
  unfold normalize_ticket_id
  rw [toList_mk, hfix, if_neg hh, hm]

theorem upperStrip_joined {p n : List Char} (hp : p.all isUpperAZ = true)
    (hn : n.all isAsciiDigit = true) : upperStrip (p ++ '-' :: n) = p ++ '-' :: n := by
  unfold upperStrip
  have hmem : ∀ x ∈ p ++ '-' :: n, isUpperAZ x = true ∨ x = '-' ∨ isAsciiDigit x = true := by
    intro x hx
    rcases List.mem_append.mp hx with hx | hx
    · exact Or.inl (List.all_eq_true.mp hp x hx)
    · rcases List.mem_cons.mp hx with rfl | hx
      · exact Or.inr (Or.inl rfl)
      · exact Or.inr (Or.inr (List.all_eq_true.mp hn x hx))
  have h1 : (p ++ '-' :: n).map Char.toUpper = p ++ '-' :: n := by
    refine map_fix fun x hx => ?_
    rcases hmem x hx with h | rfl | h
    · exact toUpper_of_upperAZ h
    · decide
    · exact toUpper_of_digit h
  rw [h1]
  refine List.filter_eq_self.mpr fun a ha => ?_
  have : a ≠ ' ' := by
    rcases hmem a ha with h | rfl | h
    · exact ne_space_of_upperAZ h
    · decide
    · exact ne_space_of_digit h
  simp [this]

theorem normalize_of_joined {p n : List Char} (hp : p.all isUpperAZ = true)
    (hn : n.all isAsciiDigit = true) :
    normalize_ticket_id (String.mk (p ++ '-' :: n)) = String.mk (p ++ '-' :: n) :=
  normalize_of_hyphen (upperStrip_joined hp hn) (by simp)

/-! Statement helpers shared by several claims. -/

/-- Canonical `PROJECT-NUMBER` shape of a ticket identifier: 2-3 uppercase
letters, a single hyphen, 1-6 decimal digits. -/
def CanonicalShape (r : String) : Prop :=
  ∃ p n : List Char, r.toList = p ++ '-' :: n ∧ 2 ≤ p.length ∧ p.length ≤ 3 ∧
    p.all isUpperAZ = true ∧ 1 ≤ n.length ∧ n.length ≤ 6 ∧ n.all isAsciiDigit = true

theorem canonicalShape_of_candidate {c : List Char × List Char} (h : candidateOK c) :
    CanonicalShape (String.mk (ticketIdOf c.1 c.2)) :=
  ⟨c.1, c.2, rfl, h.1, h.2.1, h.2.2.1, h.2.2.2.1, h.2.2.2.2.1, h.2.2.2.2.2⟩

theorem extractLoop_filter_congr {p1 p2 : Option String} {k1 k2 : Option (List String)}
    (hf : ∀ proj, passesFilters p1 k1 proj = passesFilters p2 k2 proj) (fo : Bool) :
    ∀ cands found, extractLoop p1 k1 fo cands found = extractLoop p2 k2 fo cands found := by
  intro cands
  induction cands with
  | nil => intro found; rfl
  | cons c rest ih =>
    intro found
    obtain ⟨proj, num⟩ := c
    simp only [extractLoop, hf proj, ih]

/-! Claims. -/

/-- C1: for every title and filters, `extract_ticket_ids_from_title` with
`first_only = true` returns exactly the head of the ordered candidate stream
(patterns P1-P8 in priority order, left-to-right within a pattern) restricted
to the candidates that pass both filters; evaluation stops at that first
accepted candidate. -/
theorem C1_first_match_wins (title : String) (pfx : Option String)
    (kp : Option (List String)) :
    extract_ticket_ids_from_title title pfx kp true =
      .one ((((allCandidates title.toList).filter fun c => passesFilters pfx kp c.1).head?).map
        fun c => String.mk (ticketIdOf c.1 c.2)) :=
  extract_first_eq title pfx kp

/-- C2: the source comment documents pattern 4 (`ticket_colon`) as "Ticket ID
with colon", but the regex used is the bare `TICKET_PATTERN`: on the title
"note AB-12 here", which contains no colon at all, pattern rank 4 produces
and the extractor accepts the candidate AB-12. -/
theorem C2_pattern4_accepts_without_colon :
    patternCandidates pat_ticket_colon ("note AB-12 here".toList) =
      [(['A', 'B'], ['1', '2'])] ∧
    ':' ∉ "note AB-12 here".toList ∧
    extract_ticket_ids_from_title "note AB-12 here" none none true =
      .one (some "AB-12") :=
  ⟨by decide, by decide, by decide⟩

/-- C3 (counterexample): `normalize_ticket_id` does not remove the colon of
"abc: 123"; it returns "ABC:123", not "ABC-123" as the claim states. -/
theorem C3_colon_counterexample :
    normalize_ticket_id "abc: 123" = "ABC:123" ∧ ("ABC:123" : String) ≠ "ABC-123" :=
  ⟨by decide, by decide⟩

/-- C3 (amended): `normalize_ticket_id` maps an already-canonical
`PROJECT-NUMBER` string to itself, and maps "abc123", "abc-123" and "ABC 123"
to "ABC-123"; but "abc: 123" is mapped to "ABC:123" (upper-cased,
space-stripped, colon retained), because only spaces are removed and the
splitting regex does not accept a colon. -/
theorem C3_normalize_examples :
    (∀ r : String, CanonicalShape r → normalize_ticket_id r = r) ∧
    normalize_ticket_id "abc123" = "ABC-123" ∧
    normalize_ticket_id "abc-123" = "ABC-123" ∧
    normalize_ticket_id "ABC 123" = "ABC-123" ∧
    normalize_ticket_id "abc: 123" = "ABC:123" := by
  refine ⟨?_, by decide, by decide, by decide, by decide⟩
  intro r h
  obtain ⟨p, n, hlist, -, -, h3, -, -, hn3⟩ := h
  have hr : r = String.mk (p ++ '-' :: n) := by
    rw [← hlist]
    cases r
    rfl
  rw [hr, normalize_of_joined h3 hn3]

theorem C3_witness : CanonicalShape "XY-7" ∧ normalize_ticket_id "XY-7" = "XY-7" := by
  have hs : CanonicalShape "XY-7" :=
    ⟨['X', 'Y'], ['7'], rfl, by decide, by decide, by decide, by decide, by decide, by decide⟩
  exact ⟨hs, C3_normalize_examples.1 "XY-7" hs⟩

/-- C4: a digit run immediately followed by a hyphen-digit group is rejected
by the trailing negative lookahead of every pattern: the title
"ABC-123-567: too many parts" yields no structural candidate at all, hence
none under `first_only` and the empty list otherwise; in particular it is
never misread as ABC-123. -/
theorem C4_too_many_parts_rejected :
    allCandidates ("ABC-123-567: too many parts".toList) = [] ∧
    extract_ticket_ids_from_title "ABC-123-567: too many parts" none none true = .one none ∧
    extract_ticket_ids_from_title "ABC-123-567: too many parts" none none false = .many [] :=
  ⟨by decide, by decide, by decide⟩

/-- C5: every ticket returned under `first_only` comes from a structural
candidate that passes `passesFilters` — the conjunction of the
case-insensitive string-prefix test of `prefix` on the project key and the
case-insensitive allow-list test of `known_projects` (both tests when both
are truthy, spelled out in the second conjunct) — together with the claim's
three concrete examples. -/
theorem C5_filters_behaviour :
    (∀ (title : String) (pfx : Option String) (kp : Option (List String)) (r : String),
        extract_ticket_ids_from_title title pfx kp true = .one (some r) →
        ∃ c ∈ allCandidates title.toList, r = String.mk (ticketIdOf c.1 c.2) ∧
          passesFilters pfx kp c.1 = true) ∧
    (∀ (pstr : String) (kl : List String) (proj : List Char), pstr ≠ "" → kl ≠ [] →
        passesFilters (some pstr) (some kl) proj =
          (List.isPrefixOf (strUpper pstr) proj && (kl.map strUpper).contains proj)) ∧
    extract_ticket_ids_from_title "fix: XYZ-123 - Fix login issue" (some "ABC") none true =
      .one none ∧
    extract_ticket_ids_from_title "fix: XYZ-123 - Fix login issue" none (some ["ABC", "XYZ"]) true =
      .one (some "XYZ-123") ∧
    extract_ticket_ids_from_title "fix: ABC123 - Fix login issue" (some "AB") none true =
      .one (some "ABC-123") := by
  refine ⟨extract_first_mem, ?_, by decide, by decide, by decide⟩
  intro pstr kl proj hp hk
  simp [passesFilters, strTruthy, listTruthy, knownUpper, hp, hk]

theorem C5_witness :
    (∃ c ∈ allCandidates ("fix: ABC123 - Fix login issue".toList),
      ("ABC-123" : String) = String.mk (ticketIdOf c.1 c.2) ∧
        passesFilters (some "AB") none c.1 = true) ∧
    passesFilters (some "AB") (some ["ABC"]) ['A', 'B', 'C'] =
      (List.isPrefixOf (strUpper "AB") ['A', 'B', 'C'] &&
        (["ABC"].map strUpper).contains ['A', 'B', 'C']) :=
  ⟨C5_filters_behaviour.1 "fix: ABC123 - Fix login issue" (some "AB") none "ABC-123" (by decide),
   C5_filters_behaviour.2.1 "AB" ["ABC"] ['A', 'B', 'C'] (by decide) (by decide)⟩

/-- C6: with `first_only = false` the returned list is deduplicated — no
canonical form appears twice, so a later, looser pattern never re-adds a
ticket found earlier — and on the title
"feat(ui)!: redesign dashboard [ABC-123, DEF-456]" it is exactly
["ABC-123", "DEF-456"] in discovery order. -/
theorem C6_dedup_and_order :
    (∀ (title : String) (pfx : Option String) (kp : Option (List String)) (l : List String),
        extract_ticket_ids_from_title title pfx kp false = .many l → l.Nodup) ∧
    extract_ticket_ids_from_title "feat(ui)!: redesign dashboard [ABC-123, DEF-456]"
      none none false = .many ["ABC-123", "DEF-456"] :=
  ⟨extract_many_nodup, by decide⟩

theorem C6_witness : (["ABC-123", "DEF-456"] : List String).Nodup :=
  C6_dedup_and_order.1 "feat(ui)!: redesign dashboard [ABC-123, DEF-456]" none none _ (by decide)

/-- C7: the extractor is a total function (the embedding returns a value for
every input); an empty title returns none / the empty list directly, and any
title producing no structural candidate likewise returns none / the empty
list rather than failing. -/
theorem C7_total_no_failure :
    (∀ (pfx : Option String) (kp : Option (List String)),
        extract_ticket_ids_from_title "" pfx kp true = .one none ∧
        extract_ticket_ids_from_title "" pfx kp false = .many []) ∧
    (∀ (title : String) (pfx : Option String) (kp : Option (List String)),
        allCandidates title.toList = [] →
        extract_ticket_ids_from_title title pfx kp true = .one none ∧
        extract_ticket_ids_from_title title pfx kp false = .many []) := by
  constructor
  · intro pfx kp
    constructor
    · unfold extract_ticket_ids_from_title
      rw [if_pos rfl]
      rfl
    · unfold extract_ticket_ids_from_title
      rw [if_pos rfl]
      simp
  · intro title pfx kp hnil
    constructor
    · rw [extract_first_eq, hnil]
      rfl
    · by_cases ht : title = ""
      · subst ht
        unfold extract_ticket_ids_from_title
        rw [if_pos rfl]
        simp
      · rw [extract_many_eq title pfx kp ht, hnil]
        rfl

theorem C7_witness :
    allCandidates ("chore: update dependencies".toList) = [] ∧
    extract_ticket_ids_from_title "chore: update dependencies" none none true = .one none ∧
    extract_ticket_ids_from_title "chore: update dependencies" none none false = .many [] := by
  have h : allCandidates ("chore: update dependencies".toList) = [] := by decide
  obtain ⟨h1, h2⟩ := C7_total_no_failure.2 "chore: update dependencies" none none h
  exact ⟨h, h1, h2⟩

/-- C8: every identifier the extractor returns, for any title and filters,
has the canonical `PROJECT-NUMBER` shape — 2-3 uppercase letters, one hyphen,
1-6 digits — and project keys of 1 or 4 letters never match (titles "A-123"
and "ABCD-123" yield none). -/
theorem C8_shape_invariant :
    (∀ (title : String) (pfx : Option String) (kp : Option (List String)) (r : String),
        extract_ticket_ids_from_title title pfx kp true = .one (some r) → CanonicalShape r) ∧
    (∀ (title : String) (pfx : Option String) (kp : Option (List String))
        (l : List String) (r : String),
        extract_ticket_ids_from_title title pfx kp false = .many l → r ∈ l →
        CanonicalShape r) ∧
    extract_ticket_ids_from_title "A-123" none none true = .one none ∧
    extract_ticket_ids_from_title "ABCD-123" none none true = .one none := by
  refine ⟨?_, ?_, by decide, by decide⟩
  · intro title pfx kp r h
    obtain ⟨c, hc, rfl, -⟩ := extract_first_mem title pfx kp r h
    exact canonicalShape_of_candidate (allCandidates_shape hc)
  · intro title pfx kp l r h hr
    obtain ⟨c, hc, rfl⟩ := extract_many_mem title pfx kp l r h hr
    exact canonicalShape_of_candidate (allCandidates_shape hc)

theorem C8_witness : CanonicalShape "ABC-789" :=
  C8_shape_invariant.1 "fix: ABC-789 - handle edge case" none none "ABC-789" (by decide)

/-- C9: a falsy filter argument disables the filter: for every title, the
empty-string prefix behaves exactly like no prefix, and the empty
known-projects list behaves exactly like no known-projects argument. -/
theorem C9_empty_filters_disabled (title : String) (pfx : Option String)
    (kp : Option (List String)) (fo : Bool) :
    extract_ticket_ids_from_title title (some "") kp fo =
      extract_ticket_ids_from_title title none kp fo ∧
    extract_ticket_ids_from_title title pfx (some []) fo =
      extract_ticket_ids_from_title title pfx none fo := by
  constructor
  · have hf : ∀ proj, passesFilters (some "") kp proj = passesFilters none kp proj :=
      fun proj => rfl
    unfold extract_ticket_ids_from_title
    simp only [extractLoop_filter_congr hf fo]
  · have hf : ∀ proj, passesFilters pfx (some []) proj = passesFilters pfx none proj :=
      fun proj => rfl
    unfold extract_ticket_ids_from_title
    simp only [extractLoop_filter_congr hf fo]

/-- C10: `normalize_ticket_id` is idempotent on every input string (and, as a
total function of the embedding, never fails): normalizing twice equals
normalizing once. -/
theorem C10_normalize_idempotent (s : String) :
    normalize_ticket_id (normalize_ticket_id s) = normalize_ticket_id s := by
  have hfix0 : upperStrip (upperStrip s.toList) = upperStrip s.toList := upperStrip_idem _
  by_cases hh : '-' ∈ upperStrip s.toList
  · have hs : normalize_ticket_id s = String.mk (upperStrip s.toList) := by
      unfold normalize_ticket_id
      rw [if_pos hh]
    rw [hs, normalize_of_hyphen hfix0 hh]
  · rcases hm : matchProjectNumber (upperStrip s.toList) with - | ⟨p, n⟩
    · have hs : normalize_ticket_id s = String.mk (upperStrip s.toList) := by
        unfold normalize_ticket_id
        rw [if_neg hh, hm]
      rw [hs, normalize_of_nomatch hfix0 hh hm]
    · have hs : normalize_ticket_id s = String.mk (p ++ '-' :: n) := by
        unfold normalize_ticket_id
        rw [if_neg hh, hm]
      obtain ⟨hp, hn⟩ := matchProjectNumber_sound hm
      rw [hs, normalize_of_joined hp hn]

end Jira2PR
